import Mathlib

/-!
# PengyStream - verification of the ingestion-and-admission scheduler

Shallow embedding of the PengyStream source files (file_scanner.py,
cleanup.py, video_converter.py, performance_monitor.py, main.py) and
proofs of the specification claims about them.

Paths are modelled as a parent directory (a list of components) together
with a file name (a list of characters); the filesystem is a list of such
paths. Python pathlib stem and suffix splitting and fnmatch-style glob
matching are modelled character by character.
-/

namespace PengyStream

/-- Index of the last occurrence of a character in a list, as Python
str.rfind returns it (none when absent). -/
def rfindIdx (c : Char) : List Char → Option Nat
  | [] => none
  | x :: xs =>
    match rfindIdx c xs with
    | some j => some (j + 1)
    | none => if x == c then some 0 else none

/-- Python pathlib splitting of a file name into stem and suffix: the
suffix starts at the last dot, provided that dot is neither the first nor
the last character of the name; otherwise the stem is the whole name and
the suffix is empty. -/
def splitName (name : List Char) : List Char × List Char :=
  match rfindIdx ('.') name with
  | some i => if 0 < i ∧ i < name.length - 1 then (name.take i, name.drop i) else (name, [])
  | none => (name, [])

/-- pathlib Path.stem of a file name. -/
def stemOf (name : List Char) : List Char := (splitName name).1

/-- pathlib Path.suffix of a file name. -/
def extOf (name : List Char) : List Char := (splitName name).2

/-- Python str.lower restricted to the ASCII names handled here. -/
def lowerL (s : List Char) : List Char := s.map Char.toLower

/-- A filesystem path: parent directory as a list of components plus the
file name. The filesystem itself is a list of such paths. -/
structure MPath where
  parent : List String
  name : List Char
deriving DecidableEq

/-- FileScanner.__init__ normalisation of the output container format: a
leading dot is added when missing. -/
def normFmt (fmt : List Char) : List Char :=
  match fmt with
  | '.' :: _ => fmt
  | _ => '.' :: fmt

/-- Elements of an fnmatch character class, as pairs representing ranges;
a singleton character c is the range (c, c). A hyphen that cannot form a
range (leading or trailing) is literal. -/
def classElems : List Char → List (Char × Char)
  | [] => []
  | a :: '-' :: b :: rest => (a, b) :: classElems rest
  | a :: rest => (a, a) :: classElems rest

/-- Membership of a character in an fnmatch character class body, with an
optional negation flag. -/
def matchClass (neg : Bool) (body : List Char) (c : Char) : Bool :=
  let hit := (classElems body).any (fun r => decide (r.1 ≤ c) && decide (c ≤ r.2))
  if neg then !hit else hit

/-- Scan for the closing bracket of a character class, returning the body
and the remaining pattern when found. -/
def scanClose : List Char → Option (List Char × List Char)
  | [] => none
  | ']' :: rest => some ([], rest)
  | c :: rest =>
    match scanClose rest with
    | some (body, r) => some (c :: body, r)
    | none => none

/-- Parse a character class after an opening bracket, following
fnmatch.translate: an optional leading exclamation mark negates the class,
a closing bracket placed first belongs to the body, and with no closing
bracket at all the opening bracket is treated as a literal character. -/
def extractClass (ps : List Char) : Option (Bool × List Char × List Char) :=
  match ps with
  | '!' :: ']' :: rest => (scanClose rest).map (fun br => (true, ']' :: br.1, br.2))
  | '!' :: rest => (scanClose rest).map (fun br => (true, br.1, br.2))
  | ']' :: rest => (scanClose rest).map (fun br => (false, ']' :: br.1, br.2))
  | _ => (scanClose ps).map (fun br => (false, br.1, br.2))

/-- Fuelled fnmatch matcher over single path components: star matches any
run of characters, the question mark one character, bracketed classes one
character from the class; all other pattern characters are literal. The
fuel strictly exceeds the combined pattern and string length at every call
made from globMatch, and every recursive call shrinks that combined
length, so the zero-fuel case is never reached. -/
def globMatchF : Nat → List Char → List Char → Bool
  | 0, _, _ => false
  | fuel + 1, ps, s =>
    match ps, s with
    | [], [] => true
    | [], _ :: _ => false
    | '*' :: ps2, s =>
      globMatchF fuel ps2 s ||
        (match s with
         | [] => false
         | _ :: s2 => globMatchF fuel ('*' :: ps2) s2)
    | '?' :: ps2, s =>
      (match s with
       | [] => false
       | _ :: s2 => globMatchF fuel ps2 s2)
    | '[' :: ps2, s =>
      (match extractClass ps2 with
       | some (neg, body, rest) =>
         (match s with
          | [] => false
          | c :: s2 => matchClass neg body c && globMatchF fuel rest s2)
       | none =>
         (match s with
          | [] => false
          | c :: s2 => (c == '[') && globMatchF fuel ps2 s2))
    | _ :: _, [] => false
    | pc :: ps2, c :: s2 => (pc == c) && globMatchF fuel ps2 s2

/-- fnmatch matching of a directory entry name against a glob pattern, as
used by pathlib Path.glob for a single component on a case-sensitive
filesystem. -/
def globMatch (ps s : List Char) : Bool :=
  globMatchF (ps.length + s.length + 1) ps s

/-- The FileScanner state: constructor arguments of file_scanner.py, with
the output format already normalised by init. -/
structure FileScanner where
  video_extensions : List (List Char)
  suffix : List Char
  output_format : List Char
deriving DecidableEq

/-- FileScanner.__init__: stores the extension set and suffix and
normalises the output format. -/
def FileScanner.init (exts : List (List Char)) (sfx fmt : List Char) : FileScanner :=
  ⟨exts, sfx, normFmt fmt⟩

/-- FileScanner.is_video_file: the lowercased suffix is a recognised
extension. -/
def FileScanner.is_video_file (sc : FileScanner) (p : MPath) : Bool :=
  sc.video_extensions.contains (lowerL (extOf p.name))

/-- FileScanner.is_already_processed: the stem ends with the marker
suffix. -/
def FileScanner.is_already_processed (sc : FileScanner) (p : MPath) : Bool :=
  sc.suffix.isSuffixOf (stemOf p.name)

/-- FileScanner.get_output_path: same parent, name stem + suffix +
output format. -/
def FileScanner.get_output_path (sc : FileScanner) (p : MPath) : MPath :=
  ⟨p.parent, stemOf p.name ++ sc.suffix ++ sc.output_format⟩

/-- Whether two adjacent stars occur somewhere in a pattern. -/
def hasDoubleStar : List Char → Bool
  | '*' :: '*' :: _ => true
  | _ :: rest => hasDoubleStar rest
  | [] => false

/-- pathlib Path.glob rejects a pattern whose component contains a
doubled star without being exactly the doubled star, raising ValueError
before any matching; a valid pattern is matched with fnmatch. -/
def globRaises (pat : List Char) : Bool :=
  hasDoubleStar pat && !(pat == ('*' :: ['*']))

/-- FileScanner.has_output_file: glob the parent directory for the
pattern stem + suffix + dot-star and test whether any entry matches.
Path.glob raises ValueError when the stem puts a doubled star into the
pattern; the raise is modelled as none, and has_output_file itself has no
handler, so the exception propagates to the caller. -/
def FileScanner.has_output_file (sc : FileScanner) (fs : List MPath) (p : MPath) :
    Option Bool :=
  if globRaises (stemOf p.name ++ sc.suffix ++ ('.' :: ['*'])) then none
  else some (decide (0 < (fs.filter (fun q =>
    q.parent == p.parent &&
    globMatch (stemOf p.name ++ sc.suffix ++ ('.' :: ['*'])) q.name)).length))

/-- FileScanner.should_process: a video file, not itself a derivative,
with no existing output file, and existing on disk; a ValueError raised
by the has_output_file glob propagates out unhandled (none). -/
def FileScanner.should_process (sc : FileScanner) (fs : List MPath) (p : MPath) :
    Option Bool :=
  if !(sc.is_video_file p) then some false
  else if sc.is_already_processed p then some false
  else
    match sc.has_output_file fs p with
    | none => none
    | some b =>
      if b then some false
      else if !(decide (p ∈ fs)) then some false
      else some true

/-- The extension set of config.py. -/
def pengyExts : List (List Char) :=
  [(".mp4").toList, (".mkv").toList, (".avi").toList, (".mov").toList, (".m4v").toList,
   (".wmv").toList, (".flv").toList, (".webm").toList, (".ts").toList, (".m2ts").toList]

/-- The marker suffix of config.py. -/
def pengySfx : List Char := ("-PengyStream").toList

/-- The scanner built from the configuration constants with the default
mp4 output container. -/
def defaultScanner : FileScanner := FileScanner.init pengyExts pengySfx (("mp4").toList)

/-- A source file whose stem contains glob metacharacters. -/
def pC1 : MPath := ⟨["m"], ("clip[1].mkv").toList⟩

/-- Filesystem after a successful encode of pC1: the source and the
freshly written derivative produced at get_output_path pC1. -/
def fsC1 : List MPath := [pC1, ⟨["m"], ("clip[1]-PengyStream.mp4").toList⟩]

/-- Claim C1: after a successful encode writes the derivative at
get_output_path p into the parent directory, should_process p must become
false. Evaluation at a stem containing glob metacharacters shows the code
violating this: the derivative is present, yet has_output_file treats the
stem as a glob pattern, finds no match, and should_process stays true. -/
theorem glob_metachar_breaks_dedup :
  decide (defaultScanner.get_output_path pC1 ∈ fsC1) = true ∧
  defaultScanner.has_output_file fsC1 pC1 = some false ∧
  defaultScanner.should_process fsC1 pC1 = some true := by decide

/-- An ordinary source file used by several witnesses. -/
def pW : MPath := ⟨["m"], ("movie.mkv").toList⟩

/-- Claim C2 counterexample: a path with a recognised extension and no
marker in the stem, with no derivative anywhere, on a filesystem where the
path itself does not exist. should_process is false although no file
matches the derivative pattern, so the claimed equivalence, which allows
no other condition to affect the result, fails. -/
theorem eligibility_iff_fails_without_existence :
  defaultScanner.is_video_file pW = true ∧
  defaultScanner.is_already_processed pW = false ∧
  ¬(defaultScanner.should_process [] pW = some true ↔
      defaultScanner.has_output_file [] pW = some false) := by decide

/-- Claim C2 (amended): for a path with a recognised media extension
whose stem does not end with the marker token, which exists on disk, and
whose glob pattern is valid (the stem does not put a doubled star into
it), should_process returns true exactly when the glob for stem + marker
+ dot-star finds no file in the parent directory. On a doubled-star stem
should_process instead raises ValueError out of the glob, and on a
nonexistent path it returns false. -/
theorem eligibility_iff_no_derivative
  (sc : FileScanner) (fs : List MPath) (p : MPath)
  (hvid : sc.is_video_file p = true)
  (hproc : sc.is_already_processed p = false)
  (hmem : p ∈ fs)
  (hglob : globRaises (stemOf p.name ++ sc.suffix ++ ('.' :: ['*'])) = false) :
  (sc.should_process fs p = some true ↔ sc.has_output_file fs p = some false) := by
  have hout : sc.has_output_file fs p
      = some (decide (0 < (fs.filter (fun q =>
          q.parent == p.parent &&
          globMatch (stemOf p.name ++ sc.suffix ++ ('.' :: ['*'])) q.name)).length)) := by
    have hng : ¬(globRaises (stemOf p.name ++ sc.suffix ++ ('.' :: ['*'])) = true) := by
      rw [hglob]
      exact Bool.false_ne_true
    rw [FileScanner.has_output_file, if_neg hng]
  rw [FileScanner.should_process, hout]
  simp only [hvid, hproc, Bool.not_true, Bool.false_eq_true, if_false]
  cases hd : decide (0 < (fs.filter (fun q =>
      q.parent == p.parent &&
      globMatch (stemOf p.name ++ sc.suffix ++ ('.' :: ['*'])) q.name)).length) <;>
    simp [hmem]

/-- Witness for claim C2: the amended equivalence applied to a concrete
existing source file with no derivative and a glob-safe stem. -/
theorem eligibility_iff_no_derivative_w :
  defaultScanner.should_process [pW] pW = some true ↔
    defaultScanner.has_output_file [pW] pW = some false :=
  eligibility_iff_no_derivative defaultScanner [pW] pW (by decide) (by decide)
    (by decide) (by decide)

/-- The Cleanup state: constructor arguments of cleanup.py. -/
structure Cleanup where
  video_extensions : List (List Char)
  suffix : List Char
deriving DecidableEq

/-- Cleanup.get_original_path: when the stem ends with the marker suffix,
strip the suffix from the stem and keep the own extension and parent;
otherwise return the path unchanged. The Python slice stem[:-len(suffix)]
with the nonempty configured suffix equals dropping the final
len(suffix) characters of the stem. -/
def Cleanup.get_original_path (cl : Cleanup) (p : MPath) : MPath :=
  let stem := stemOf p.name
  let ext := extOf p.name
  if cl.suffix.isSuffixOf stem then
    ⟨p.parent, stem.take (stem.length - cl.suffix.length) ++ ext⟩
  else p

/-- Cleanup.is_pengystream_file: recognised extension and stem ending with
the marker suffix. -/
def Cleanup.is_pengystream_file (cl : Cleanup) (p : MPath) : Bool :=
  cl.video_extensions.contains (lowerL (extOf p.name)) &&
  cl.suffix.isSuffixOf (stemOf p.name)

/-- The cleanup handler built from the configuration constants. -/
def defaultCleanup : Cleanup := ⟨pengyExts, pengySfx⟩

/-- rfind misses a character that does not occur. -/
theorem rfind_eq_none (c : Char) (l : List Char) (h : c ∉ l) :
    rfindIdx c l = none := by
  induction l with
  | nil => rfl
  | cons x xs ih =>
    have hx : ¬(x = c) := fun hxc => h (hxc ▸ List.mem_cons_self x xs)
    have hxs : c ∉ xs := fun hm => h (List.mem_cons_of_mem x hm)
    simp [rfindIdx, ih hxs, hx]

/-- rfind of a character occurring in the right part of an append. -/
theorem rfind_append (c : Char) (xs ys : List Char) (j : Nat)
    (h : rfindIdx c ys = some j) :
    rfindIdx c (xs ++ ys) = some (xs.length + j) := by
  induction xs with
  | nil => simpa using h
  | cons x xs ih =>
    simp only [List.cons_append, rfindIdx]
    have ih2 : rfindIdx c (xs.append ys) = some (xs.length + j) := ih
    rw [ih2]
    show some (xs.length + j + 1) = some ((xs.length + 1) + j)
    congr 1
    omega

/-- Splitting a name of the shape A ++ dot ++ rest where rest is nonempty
and dot-free: the stem is A and the suffix is dot ++ rest, provided A is
nonempty. -/
theorem splitName_concat (A rest : List Char) (hA : A ≠ []) (hr : rest ≠ [])
    (hd : ('.') ∉ rest) :
    splitName (A ++ '.' :: rest) = (A, '.' :: rest) := by
  have h0 : rfindIdx ('.') ('.' :: rest) = some 0 := by
    simp [rfindIdx, rfind_eq_none ('.') rest hd]
  have h1 : rfindIdx ('.') (A ++ '.' :: rest) = some A.length := by
    simpa using rfind_append ('.') A ('.' :: rest) 0 h0
  have hApos : 0 < A.length := List.length_pos.mpr hA
  have hrpos : 0 < rest.length := List.length_pos.mpr hr
  have hc2 : A.length < (A ++ '.' :: rest).length - 1 := by
    rw [List.length_append, List.length_cons]
    omega
  simp [splitName, h1, hApos, hc2, hr, List.take_left, List.drop_left]

/-- The stem of a nonempty name is nonempty. -/
theorem stem_ne_nil (name : List Char) (h : name ≠ []) : stemOf name ≠ [] := by
  have hnp : 0 < name.length := List.length_pos.mpr h
  unfold stemOf splitName
  cases hr : rfindIdx ('.') name with
  | none => simpa using h
  | some i =>
    by_cases hc : 0 < i ∧ i < name.length - 1
    · simp only [hc, if_pos, and_self]
      have : 0 < (name.take i).length := by
        rw [List.length_take]
        omega
      exact List.length_pos.mp this
    · simp only [hc, if_neg, not_false_eq_true]
      exact h

/-- A list is a prefix, in the executable sense, of itself followed by
anything. -/
theorem isPrefixOf_append_self {α : Type} [DecidableEq α] (l t : List α) :
    l.isPrefixOf (l ++ t) = true := by
  induction l with
  | nil => simp
  | cons x xs ih => simp [List.isPrefixOf, ih]

/-- A list is a suffix, in the executable sense, of anything followed by
itself. -/
theorem isSuffixOf_append_self {α : Type} [DecidableEq α] (l x : List α) :
    l.isSuffixOf (x ++ l) = true := by
  unfold List.isSuffixOf
  rw [List.reverse_append]
  exact isPrefixOf_append_self _ _

/-- Claim C5: get_original_path after get_output_path restores the stem
and the parent directory; the extension of the result is the configured
output container. The hypotheses say the source has a nonempty name and
the configured container normalises to a dot followed by a nonempty
dot-free label, as mp4 or mkv do. -/
theorem output_original_roundtrip_stem
    (exts : List (List Char)) (fmt rest : List Char) (p : MPath)
    (hname : p.name ≠ [])
    (hnf : normFmt fmt = '.' :: rest)
    (hrest : rest ≠ [])
    (hdot : ('.') ∉ rest) :
    stemOf ((Cleanup.get_original_path ⟨exts, pengySfx⟩
        (FileScanner.get_output_path (FileScanner.init exts pengySfx fmt) p)).name)
      = stemOf p.name ∧
    extOf ((Cleanup.get_original_path ⟨exts, pengySfx⟩
        (FileScanner.get_output_path (FileScanner.init exts pengySfx fmt) p)).name)
      = '.' :: rest ∧
    (Cleanup.get_original_path ⟨exts, pengySfx⟩
        (FileScanner.get_output_path (FileScanner.init exts pengySfx fmt) p)).parent
      = p.parent := by
  have hS : stemOf p.name ≠ [] := stem_ne_nil p.name hname
  have hsfx : pengySfx ≠ [] := by decide
  have hname2 : (FileScanner.get_output_path (FileScanner.init exts pengySfx fmt) p).name
      = (stemOf p.name ++ pengySfx) ++ '.' :: rest := by
    simp [FileScanner.get_output_path, FileScanner.init, hnf, List.append_assoc]
  have hA : stemOf p.name ++ pengySfx ≠ [] := by
    intro habs
    exact hsfx (List.append_eq_nil.mp habs).2
  have hsplit : splitName ((stemOf p.name ++ pengySfx) ++ '.' :: rest)
      = (stemOf p.name ++ pengySfx, '.' :: rest) :=
    splitName_concat _ _ hA hrest hdot
  have hstem : stemOf ((FileScanner.get_output_path (FileScanner.init exts pengySfx fmt) p).name)
      = stemOf p.name ++ pengySfx := by
    rw [stemOf, hname2, hsplit]
  have hext : extOf ((FileScanner.get_output_path (FileScanner.init exts pengySfx fmt) p).name)
      = '.' :: rest := by
    rw [extOf, hname2, hsplit]
  have hcond : pengySfx.isSuffixOf
      (stemOf ((FileScanner.get_output_path (FileScanner.init exts pengySfx fmt) p).name)) = true := by
    rw [hstem]
    exact isSuffixOf_append_self _ _
  have htake : (stemOf p.name ++ pengySfx).take
      ((stemOf p.name ++ pengySfx).length - pengySfx.length) = stemOf p.name := by
    have : (stemOf p.name ++ pengySfx).length - pengySfx.length = (stemOf p.name).length := by
      rw [List.length_append]
      omega
    rw [this]
    exact List.take_left _ _
  have hcond2 : pengySfx.isSuffixOf (stemOf p.name ++ pengySfx) = true :=
    isSuffixOf_append_self _ _
  have hpar : ((FileScanner.init exts pengySfx fmt).get_output_path p).parent = p.parent := rfl
  have horig : Cleanup.get_original_path ⟨exts, pengySfx⟩
      (FileScanner.get_output_path (FileScanner.init exts pengySfx fmt) p)
      = ⟨p.parent, stemOf p.name ++ '.' :: rest⟩ := by
    simp [Cleanup.get_original_path, hstem, hext, hcond2, htake, hpar]
  rw [horig]
  have hres : splitName (stemOf p.name ++ '.' :: rest) = (stemOf p.name, '.' :: rest) :=
    splitName_concat _ _ hS hrest hdot
  refine ⟨?_, ?_, rfl⟩
  · rw [stemOf, hres]
  · rw [extOf, hres]

/-- Witness for claim C5: the round trip at the source movie.mkv with the
configured mp4 container. -/
theorem output_original_roundtrip_stem_w :
    stemOf ((Cleanup.get_original_path ⟨pengyExts, pengySfx⟩
        (FileScanner.get_output_path
          (FileScanner.init pengyExts pengySfx (("mp4").toList)) pW)).name)
      = stemOf pW.name ∧
    extOf ((Cleanup.get_original_path ⟨pengyExts, pengySfx⟩
        (FileScanner.get_output_path
          (FileScanner.init pengyExts pengySfx (("mp4").toList)) pW)).name)
      = '.' :: ("mp4").toList ∧
    (Cleanup.get_original_path ⟨pengyExts, pengySfx⟩
        (FileScanner.get_output_path
          (FileScanner.init pengyExts pengySfx (("mp4").toList)) pW)).parent
      = pW.parent :=
  output_original_roundtrip_stem pengyExts (("mp4").toList) (("mp4").toList) pW
    (by decide) (by decide) (by decide) (by decide)

/-- Claim C10: on a path whose stem does not end with the marker suffix,
get_original_path is the identity. -/
theorem original_path_identity_nonderivative
    (cl : Cleanup) (p : MPath)
    (h : cl.suffix.isSuffixOf (stemOf p.name) = false) :
    cl.get_original_path p = p := by
  simp [Cleanup.get_original_path, h]

/-- Witness for claim C10: the identity at a plain source file. -/
theorem original_path_identity_nonderivative_w :
    defaultCleanup.get_original_path pW = pW :=
  original_path_identity_nonderivative defaultCleanup pW (by decide)

/-- FileScanner.is_file_stable over the four filesystem observations the
code makes: the two existence checks and the two size samples, a size
sample of none standing for an OSError or PermissionError raised by stat,
which the surrounding handler catches and turns into false. The function
is total: every filesystem outcome yields a boolean. -/
def is_file_stable (exists1 : Bool) (stat1 : Option Nat)
    (exists2 : Bool) (stat2 : Option Nat) : Bool :=
  if !exists1 then false
  else
    match stat1 with
    | none => false
    | some initial =>
      if !exists2 then false
      else
        match stat2 with
        | none => false
        | some final => initial == final

/-- Claim C8: is_file_stable returns true exactly when the file exists at
both samples and both size samples succeed with equal sizes; in every
other filesystem outcome, a missing file at either sample or an OS error
during either stat, it returns false, and it never raises. -/
theorem file_stable_iff_sizes_match (exists1 exists2 : Bool)
    (stat1 stat2 : Option Nat) :
    is_file_stable exists1 stat1 exists2 stat2 = true ↔
      (exists1 = true ∧ exists2 = true ∧
        ∃ n, stat1 = some n ∧ stat2 = some n) := by
  cases exists1 <;> cases exists2 <;> cases stat1 <;> cases stat2 <;>
    simp [is_file_stable]
  exact eq_comm

/-- Information about the first video and audio stream of a probed file,
as built by VideoConverter.get_video_info. -/
structure VideoInfo where
  video_codec : List Char
  video_height : Nat
  audio_codec : List Char
  has_video : Bool
  has_audio : Bool
deriving DecidableEq

/-- The VideoConverter state: constructor arguments of
video_converter.py. -/
structure VideoConverter where
  video_codec : List Char
  audio_codec : List Char
  max_resolution : Nat
  copy_if_compatible : Bool
deriving DecidableEq

/-- VideoConverter.is_compatible: the video stream is compatible when
present, already h264 or avc, and within the resolution bound; the audio
stream when present and already the configured audio codec. -/
def VideoConverter.is_compatible (vc : VideoConverter) (info : VideoInfo) :
    Bool × Bool :=
  (info.has_video &&
     (info.video_codec == ("h264").toList || info.video_codec == ("avc").toList) &&
     decide (info.video_height ≤ vc.max_resolution),
   info.has_audio && info.audio_codec == vc.audio_codec)

/-- What the external ffmpeg invocation did: terminated with an exit
code, hit the timeout handler, or raised some other exception. -/
inductive FfmpegRun where
  | completed (rc : Int)
  | timedOut
  | raised
deriving DecidableEq

/-- How convert_video handles the video stream in the ffmpeg command. -/
inductive VideoAction where
  | copyVideo
  | transcodeVideo (scaled : Bool)
deriving DecidableEq

/-- How convert_video handles the audio stream in the ffmpeg command. -/
inductive AudioAction where
  | copyAudio
  | transcodeAudio
deriving DecidableEq

/-- The decision convert_video reaches before any ffmpeg run: abort on a
failed probe, skip entirely when the copy flag is set and both streams
are compatible, or encode with per-stream copy or transcode choices. -/
inductive ConvertPlan where
  | probeFailed
  | skippedCompatible
  | encode (v : VideoAction) (a : AudioAction)
deriving DecidableEq

/-- The command-construction part of VideoConverter.convert_video,
lines 136 to 178: probe, compatibility check, early skip, then the
per-stream copy or transcode selection including the scale filter. -/
def VideoConverter.convert_plan (vc : VideoConverter)
    (probe : Option VideoInfo) : ConvertPlan :=
  match probe with
  | none => .probeFailed
  | some info =>
    let compat := vc.is_compatible info
    if vc.copy_if_compatible && compat.1 && compat.2 then .skippedCompatible
    else
      .encode
        (if compat.1 && vc.copy_if_compatible then .copyVideo
         else .transcodeVideo (decide (vc.max_resolution < info.video_height)))
        (if compat.2 && vc.copy_if_compatible then .copyAudio
         else .transcodeAudio)

/-- VideoConverter.convert_video as a function of the plan and the ffmpeg
outcome. The first component is the returned boolean; the second states
whether a file written by this invocation is still present at the output
path on return: on a nonzero exit, a timeout or an exception the code
unlinks any partial output, and on the probe-failure and skip branches
ffmpeg never runs, so nothing was written. wroteOutput says whether the
completed ffmpeg run produced the output file. -/
def VideoConverter.convert_video (vc : VideoConverter)
    (probe : Option VideoInfo) (run : FfmpegRun) (wroteOutput : Bool) :
    Bool × Bool :=
  match vc.convert_plan probe with
  | .probeFailed => (false, false)
  | .skippedCompatible => (false, false)
  | .encode _ _ =>
    match run with
    | .completed rc => if rc == 0 then (true, wroteOutput) else (false, false)
    | .timedOut => (false, false)
    | .raised => (false, false)

/-- The reason component of the PerformanceMonitor.can_encode result,
standing for the formatted reason strings of the code. -/
inductive DenyReason where
  | cpuHigh
  | gpuHigh
  | available
deriving DecidableEq

/-- The PerformanceMonitor state: the two thresholds of
performance_monitor.py. Usage readings and thresholds are modelled as
rationals; the comparisons of the code are exact on the values
involved. -/
structure PerformanceMonitor where
  cpu_threshold : ℚ
  gpu_threshold : ℚ
deriving DecidableEq

/-- PerformanceMonitor.can_encode for given current usage samples: denied
when the CPU sample exceeds its threshold, otherwise when the GPU sample
exceeds its threshold, otherwise allowed. -/
def PerformanceMonitor.can_encode (pm : PerformanceMonitor) (cpu gpu : ℚ) :
    Bool × DenyReason :=
  if cpu > pm.cpu_threshold then (false, .cpuHigh)
  else if gpu > pm.gpu_threshold then (false, .gpuHigh)
  else (true, .available)

/-- One pass of the EncodingWorker.run loop body of main.py on the queue,
as a function of the eligibility re-check, the admission decision and the
conversion outcome for the dequeued item. An empty queue is the Empty
timeout, which just continues; an ineligible head is dropped; a denied
head is pushed back to the tail; otherwise the item is encoded and, on
success and on failure alike, only logged and never requeued. -/
def worker_iteration (elig : MPath → Bool) (admitOk : Bool)
    (convOk : MPath → Bool) (q : List MPath) : List MPath :=
  match q with
  | [] => []
  | p :: rest =>
    if !(elig p) then rest
    else if !admitOk then rest ++ [p]
    else if convOk p then rest else rest

/-- Iterated worker passes with a fixed admission decision. -/
def worker_iter (elig : MPath → Bool) (admitOk : Bool) (convOk : MPath → Bool) :
    Nat → List MPath → List MPath
  | 0, q => q
  | n + 1, q => worker_iter elig admitOk convOk n (worker_iteration elig admitOk convOk q)

/-- A single denied pass permutes the queue: the head moves to the
tail. -/
theorem worker_step_denied_perm (elig convOk : MPath → Bool) (q : List MPath)
    (helig : ∀ x ∈ q, elig x = true) :
    (worker_iteration elig false convOk q).Perm q := by
  cases q with
  | nil => simp [worker_iteration]
  | cons p rest =>
    have hp : elig p = true := helig p (List.mem_cons_self p rest)
    simp only [worker_iteration, hp, Bool.not_true, Bool.false_eq_true, if_false,
      Bool.not_false, if_true]
    exact List.perm_append_singleton p rest

/-- Claim C3: when can_encode denies, a dequeued eligible item is pushed
back to the tail of the queue, and any number of denied passes leaves the
multiset of pending items unchanged, every queued item remaining
retrievable. -/
theorem admission_denial_never_loses_items
    (pm : PerformanceMonitor) (cpu gpu : ℚ)
    (elig convOk : MPath → Bool) (q : List MPath) (n : Nat)
    (hden : (pm.can_encode cpu gpu).1 = false)
    (helig : ∀ x ∈ q, elig x = true) :
    (∀ p rest, elig p = true →
        worker_iteration elig (pm.can_encode cpu gpu).1 convOk (p :: rest)
          = rest ++ [p]) ∧
    (worker_iter elig (pm.can_encode cpu gpu).1 convOk n q).Perm q ∧
    (∀ x ∈ q, x ∈ worker_iter elig (pm.can_encode cpu gpu).1 convOk n q) := by
  rw [hden]
  have main : ∀ (m : Nat) (r : List MPath), (∀ x ∈ r, elig x = true) →
      (worker_iter elig false convOk m r).Perm r := by
    intro m
    induction m with
    | zero => intro r _; simp [worker_iter]
    | succ k ih =>
      intro r hr
      have hstep := worker_step_denied_perm elig convOk r hr
      have hr2 : ∀ x ∈ worker_iteration elig false convOk r, elig x = true :=
        fun x hx => hr x (hstep.mem_iff.mp hx)
      have : worker_iter elig false convOk (k + 1) r
          = worker_iter elig false convOk k (worker_iteration elig false convOk r) := rfl
      rw [this]
      exact (ih _ hr2).trans hstep
  refine ⟨?_, main n q helig, ?_⟩
  · intro p rest hp
    simp [worker_iteration, hp]
  · intro x hx
    exact (main n q helig).mem_iff.mpr hx

/-- Witness for claim C3: at a 95 percent CPU sample against an 80
percent threshold the item survives five denied passes. -/
theorem admission_denial_never_loses_items_w :
    pW ∈ worker_iter (fun _ => true)
      ((PerformanceMonitor.can_encode ⟨80, 80⟩ 95 0).1) (fun _ => false) 5 [pW] :=
  (admission_denial_never_loses_items ⟨80, 80⟩ 95 0 (fun _ => true) (fun _ => false)
      [pW] 5 (by decide) (fun x hx => rfl)).2.2 pW (List.mem_cons_self pW [])

/-- Claim C6: every encode failure, a failed probe, a nonzero ffmpeg
exit, a timeout, or an exception during conversion, makes convert_video
return false with no partial output file left at the destination, and the
worker then drops the dequeued item without requeueing it. -/
theorem encode_failure_drops_item
    (vc : VideoConverter) (probe : Option VideoInfo) (run : FfmpegRun)
    (wroteOutput : Bool) (elig convOk : MPath → Bool) (p : MPath)
    (rest : List MPath)
    (hfail : probe = none ∨ (∃ rc, run = FfmpegRun.completed rc ∧ rc ≠ 0) ∨
      run = FfmpegRun.timedOut ∨ run = FfmpegRun.raised)
    (helig : elig p = true) :
    vc.convert_video probe run wroteOutput = (false, false) ∧
    worker_iteration elig true convOk (p :: rest) = rest := by
  constructor
  · rcases hfail with hp | ⟨rc, hrc, hne⟩ | ht | hr
    · subst hp
      simp [VideoConverter.convert_video, VideoConverter.convert_plan]
    · subst hrc
      rw [VideoConverter.convert_video]
      cases vc.convert_plan probe with
      | probeFailed => rfl
      | skippedCompatible => rfl
      | encode v a =>
        have : (rc == 0) = false := beq_eq_false_iff_ne.mpr hne
        simp [this]
    · subst ht
      rw [VideoConverter.convert_video]
      cases vc.convert_plan probe with
      | probeFailed => rfl
      | skippedCompatible => rfl
      | encode v a => rfl
    · subst hr
      rw [VideoConverter.convert_video]
      cases vc.convert_plan probe with
      | probeFailed => rfl
      | skippedCompatible => rfl
      | encode v a => rfl
  · cases h : convOk p <;> simp [worker_iteration, helig, h]

/-- Witness for claim C6: a timed-out run on an unprobeable file returns
false with no partial output, and the worker queue loses exactly that
item. -/
theorem encode_failure_drops_item_w :
    VideoConverter.convert_video ⟨("h264").toList, ("aac").toList, 1440, true⟩
      none FfmpegRun.timedOut false = (false, false) ∧
    worker_iteration (fun _ => true) true (fun _ => false) (pW :: []) = [] :=
  encode_failure_drops_item ⟨("h264").toList, ("aac").toList, 1440, true⟩
    none FfmpegRun.timedOut false (fun _ => true) (fun _ => false) pW []
    (Or.inl rfl) rfl

/-- The converter built from the configuration defaults. -/
def defaultConverter : VideoConverter :=
  ⟨("h264").toList, ("aac").toList, 1440, true⟩

/-- A fully compatible source: h264 video within the resolution bound and
aac audio. -/
def infoCompat : VideoInfo :=
  ⟨("h264").toList, 1080, ("aac").toList, true, true⟩

/-- Claim C9 counterexample: with the copy flag set and a source whose
streams both already match the target codec and resolution, convert_video
does not produce the derivative by stream copying; it skips the file
entirely and returns false, leaving no output file, even when an ffmpeg
run would have succeeded. -/
theorem copy_compatible_produces_nothing :
    defaultConverter.convert_plan (some infoCompat) = ConvertPlan.skippedCompatible ∧
    defaultConverter.convert_video (some infoCompat) (FfmpegRun.completed 0) true
      = (false, false) := by decide

/-- Claim C9 (amended): with the copy flag set, a source with both
streams compatible is skipped outright with no derivative produced;
stream copy is used selectively, for the video stream exactly when it
alone is compatible, and for the audio stream exactly when it alone is
compatible, the other stream being transcoded. -/
theorem copy_compatible_plan
    (vc : VideoConverter) (info : VideoInfo)
    (hcic : vc.copy_if_compatible = true) :
    ((vc.is_compatible info).1 = true → (vc.is_compatible info).2 = true →
        vc.convert_plan (some info) = ConvertPlan.skippedCompatible) ∧
    ((vc.is_compatible info).1 = true → (vc.is_compatible info).2 = false →
        vc.convert_plan (some info)
          = ConvertPlan.encode VideoAction.copyVideo AudioAction.transcodeAudio) ∧
    ((vc.is_compatible info).1 = false → (vc.is_compatible info).2 = true →
        vc.convert_plan (some info)
          = ConvertPlan.encode
              (VideoAction.transcodeVideo (decide (vc.max_resolution < info.video_height)))
              AudioAction.copyAudio) := by
  refine ⟨?_, ?_, ?_⟩ <;> intro h1 h2 <;>
    simp [VideoConverter.convert_plan, hcic, h1, h2]

/-- A source with compatible video but incompatible ac3 audio. -/
def infoVideoOnly : VideoInfo :=
  ⟨("h264").toList, 1080, ("ac3").toList, true, true⟩

/-- A source with incompatible hevc video but compatible aac audio. -/
def infoAudioOnly : VideoInfo :=
  ⟨("hevc").toList, 2160, ("aac").toList, true, true⟩

/-- Witness for claim C9: the three amended branches at concrete
sources. -/
theorem copy_compatible_plan_w :
    defaultConverter.convert_plan (some infoCompat) = ConvertPlan.skippedCompatible ∧
    defaultConverter.convert_plan (some infoVideoOnly)
      = ConvertPlan.encode VideoAction.copyVideo AudioAction.transcodeAudio ∧
    defaultConverter.convert_plan (some infoAudioOnly)
      = ConvertPlan.encode
          (VideoAction.transcodeVideo
            (decide (defaultConverter.max_resolution < infoAudioOnly.video_height)))
          AudioAction.copyAudio :=
  ⟨(copy_compatible_plan defaultConverter infoCompat rfl).1 (by decide) (by decide),
   (copy_compatible_plan defaultConverter infoVideoOnly rfl).2.1 (by decide) (by decide),
   (copy_compatible_plan defaultConverter infoAudioOnly rfl).2.2 (by decide) (by decide)⟩

/-- Whether a file lies in the recursive subtree of a folder: the folder
components are an initial segment of the parent directory components, as
with os.walk. -/
def underFolder (folder : List String) (p : MPath) : Bool :=
  folder.isPrefixOf p.parent

/-- Cleanup.find_orphaned_files: walk the folder and keep the PengyStream
files whose reconstructed original path does not exist. The walk is the
filter of the filesystem to the folder subtree, and existence is
membership in the filesystem. -/
def Cleanup.find_orphaned_files (cl : Cleanup) (fs : List MPath)
    (folder : List String) : List MPath :=
  fs.filter (fun p =>
    underFolder folder p &&
    cl.is_pengystream_file p &&
    !(decide (cl.get_original_path p ∈ fs)))

/-- One folder pass of Cleanup.cleanup_orphaned_files without dry run:
find the orphans of the current state, unlink each, and add the
successful deletions to the tally. -/
def Cleanup.cleanup_step (cl : Cleanup) (st : List MPath × Nat)
    (folder : List String) : List MPath × Nat :=
  let orphaned := cl.find_orphaned_files st.1 folder
  (st.1.filter (fun p => !(decide (p ∈ orphaned))), st.2 + orphaned.length)

/-- Cleanup.cleanup_orphaned_files over a folder list: fold the per-folder
pass over the folders, counting without deleting in dry-run mode. The
result is the filesystem after the deletions together with the returned
tally. -/
def Cleanup.cleanup_orphaned_files (cl : Cleanup) (fs : List MPath)
    (folders : List (List String)) (dryRun : Bool) : List MPath × Nat :=
  folders.foldl
    (fun st folder =>
      if dryRun then (st.1, st.2 + (cl.find_orphaned_files st.1 folder).length)
      else cl.cleanup_step st folder)
    (fs, 0)

/-- A chained derivative: a PengyStream file whose reconstructed original
is itself a PengyStream file. -/
def fsC4 : List MPath :=
  [⟨["media"], ("movie-PengyStream-PengyStream.mp4").toList⟩,
   ⟨["media"], ("movie-PengyStream.mp4").toList⟩]

/-- Claim C4 counterexample: on a filesystem holding a chained derivative
and its orphaned original derivative, the first cleanup pass deletes only
the inner file, which orphans the chained one, so the second pass with no
intervening filesystem change deletes one more file and returns count 1,
not 0. -/
theorem orphan_cleanup_second_pass_deletes :
    (defaultCleanup.cleanup_orphaned_files fsC4 [["media"]] false).2 = 1 ∧
    (defaultCleanup.cleanup_orphaned_files
      ((defaultCleanup.cleanup_orphaned_files fsC4 [["media"]] false).1)
      [["media"]] false).2 = 1 := by decide

/-- A filter is empty exactly when the predicate fails on every
element. -/
theorem filter_eq_nil_iff_mem {α : Type} (pr : α → Bool) (l : List α) :
    l.filter pr = [] ↔ ∀ a ∈ l, pr a = false := by
  induction l with
  | nil => simp
  | cons x xs ih => cases hx : pr x <;> simp [List.filter_cons, hx, ih]

/-- Membership in the orphan list, unfolded. -/
theorem orph_mem (cl : Cleanup) (fs : List MPath) (folder : List String)
    (p : MPath) :
    p ∈ cl.find_orphaned_files fs folder ↔
      p ∈ fs ∧ underFolder folder p = true ∧
        cl.is_pengystream_file p = true ∧ cl.get_original_path p ∉ fs := by
  simp [Cleanup.find_orphaned_files, List.mem_filter, and_assoc]

/-- Every orphan is a PengyStream file. -/
theorem orph_isP (cl : Cleanup) (fs : List MPath) (folder : List String)
    (p : MPath) (h : p ∈ cl.find_orphaned_files fs folder) :
    cl.is_pengystream_file p = true :=
  ((orph_mem cl fs folder p).mp h).2.2.1

/-- A file that is not a PengyStream file survives any deletion pass that
removes only PengyStream files. -/
theorem orig_survives (cl : Cleanup) (fs O : List MPath) (q : MPath)
    (hq : q ∈ fs) (hnotP : cl.is_pengystream_file q = false)
    (hO : ∀ r ∈ O, cl.is_pengystream_file r = true) :
    q ∈ fs.filter (fun p => !(decide (p ∈ O))) := by
  rw [List.mem_filter]
  refine ⟨hq, ?_⟩
  simp only [Bool.not_eq_true', decide_eq_false_iff_not]
  intro hqO
  have hP := hO q hqO
  rw [hnotP] at hP
  exact Bool.false_ne_true hP

/-- From an empty orphan list: every PengyStream file of the state under
the folder has its original present. -/
theorem horig_of_nil (cl : Cleanup) (fs : List MPath) (g : List String)
    (hnil : cl.find_orphaned_files fs g = []) :
    ∀ p ∈ fs, underFolder g p = true → cl.is_pengystream_file p = true →
      cl.get_original_path p ∈ fs := by
  intro p hp hu hP
  have hpred := (filter_eq_nil_iff_mem _ _).mp hnil p hp
  rw [hu, hP] at hpred
  simpa using hpred

/-- Restriction of cleanup_orphaned_files without dry run to the plain
fold of the per-folder pass. -/
theorem cleanup_false_eq (cl : Cleanup) (fs : List MPath)
    (folders : List (List String)) :
    cl.cleanup_orphaned_files fs folders false
      = folders.foldl cl.cleanup_step (fs, 0) := by
  rw [Cleanup.cleanup_orphaned_files]
  congr 1

/-- The induction behind idempotence: starting from a state with no
chained PengyStream files and a set G of already orphan-free folders,
folding the cleanup pass over further folders yields a subset of the
state in which every folder of G and of the processed list is
orphan-free. -/
theorem cleanup_go (cl : Cleanup) :
    ∀ (folders : List (List String)) (fs : List MPath) (acc : Nat)
      (G : List (List String)),
      (∀ p ∈ fs, cl.is_pengystream_file p = true →
        cl.is_pengystream_file (cl.get_original_path p) = false) →
      (∀ g ∈ G, cl.find_orphaned_files fs g = []) →
      (∀ p ∈ (folders.foldl cl.cleanup_step (fs, acc)).1, p ∈ fs) ∧
      (∀ g ∈ G ++ folders,
        cl.find_orphaned_files (folders.foldl cl.cleanup_step (fs, acc)).1 g
          = []) := by
  intro folders
  induction folders with
  | nil =>
    intro fs acc G hchain hG
    exact ⟨fun p hp => hp, by simpa using hG⟩
  | cons f rest ih =>
    intro fs acc G hchain hG
    have hfold : (f :: rest).foldl cl.cleanup_step (fs, acc)
        = rest.foldl cl.cleanup_step
            (fs.filter (fun p => !(decide (p ∈ cl.find_orphaned_files fs f))),
             acc + (cl.find_orphaned_files fs f).length) := rfl
    have hsub : ∀ p ∈ fs.filter
        (fun p => !(decide (p ∈ cl.find_orphaned_files fs f))), p ∈ fs :=
      fun p hp => (List.mem_filter.mp hp).1
    have hOisP : ∀ r ∈ cl.find_orphaned_files fs f,
        cl.is_pengystream_file r = true :=
      fun r hr => orph_isP cl fs f r hr
    have hchain2 : ∀ p ∈ fs.filter
        (fun p => !(decide (p ∈ cl.find_orphaned_files fs f))),
        cl.is_pengystream_file p = true →
          cl.is_pengystream_file (cl.get_original_path p) = false :=
      fun p hp => hchain p (hsub p hp)
    have hpres : ∀ g : List String,
        (∀ p ∈ fs.filter
            (fun p => !(decide (p ∈ cl.find_orphaned_files fs f))),
          underFolder g p = true → cl.is_pengystream_file p = true →
            cl.get_original_path p ∈ fs) →
        cl.find_orphaned_files
          (fs.filter (fun p => !(decide (p ∈ cl.find_orphaned_files fs f)))) g
          = [] := by
      intro g hg
      rw [Cleanup.find_orphaned_files, filter_eq_nil_iff_mem]
      intro p hp
      cases hu : underFolder g p with
      | false => simp [hu]
      | true =>
        cases hP : cl.is_pengystream_file p with
        | false => simp [hu, hP]
        | true =>
          have hofs : cl.get_original_path p ∈ fs := hg p hp hu hP
          have hnotP : cl.is_pengystream_file (cl.get_original_path p) = false :=
            hchain p (hsub p hp) hP
          have hsurv : cl.get_original_path p ∈ fs.filter
              (fun q => !(decide (q ∈ cl.find_orphaned_files fs f))) :=
            orig_survives cl fs (cl.find_orphaned_files fs f) _ hofs hnotP hOisP
          simp [hu, hP, hsurv]
    have hnotinO : ∀ p ∈ fs.filter
        (fun p => !(decide (p ∈ cl.find_orphaned_files fs f))),
        p ∉ cl.find_orphaned_files fs f := by
      intro p hp
      have h2 := (List.mem_filter.mp hp).2
      simpa using h2
    have hf_nil : cl.find_orphaned_files
        (fs.filter (fun p => !(decide (p ∈ cl.find_orphaned_files fs f)))) f
        = [] := by
      apply hpres f
      intro p hp hu hP
      have hpfs : p ∈ fs := hsub p hp
      have hpO : p ∉ cl.find_orphaned_files fs f := hnotinO p hp
      cases hpred : (underFolder f p && cl.is_pengystream_file p &&
          !(decide (cl.get_original_path p ∈ fs))) with
      | true =>
        exfalso
        apply hpO
        rw [Cleanup.find_orphaned_files]
        exact List.mem_filter.mpr ⟨hpfs, hpred⟩
      | false =>
        rw [hu, hP] at hpred
        simpa using hpred
    have hGf : ∀ g ∈ G ++ [f],
        cl.find_orphaned_files
          (fs.filter (fun p => !(decide (p ∈ cl.find_orphaned_files fs f)))) g
          = [] := by
      intro g hg
      rcases List.mem_append.mp hg with hgG | hgf
      · exact hpres g
          (fun p hp hu hP => horig_of_nil cl fs g (hG g hgG) p (hsub p hp) hu hP)
      · have hgf2 : g = f := by simpa using hgf
        subst hgf2
        exact hf_nil
    obtain ⟨ihsub, ihnil⟩ :=
      ih (fs.filter (fun p => !(decide (p ∈ cl.find_orphaned_files fs f))))
        (acc + (cl.find_orphaned_files fs f).length) (G ++ [f]) hchain2 hGf
    constructor
    · intro p hp
      rw [hfold] at hp
      exact hsub p (ihsub p hp)
    · intro g hg
      rw [hfold]
      apply ihnil
      simpa [List.append_assoc] using hg

/-- Folding the cleanup pass over folders that are all orphan-free does
nothing. -/
theorem cleanup_noop (cl : Cleanup) :
    ∀ (folders : List (List String)) (fs : List MPath) (acc : Nat),
      (∀ g ∈ folders, cl.find_orphaned_files fs g = []) →
      folders.foldl cl.cleanup_step (fs, acc) = (fs, acc) := by
  intro folders
  induction folders with
  | nil => intro fs acc _; rfl
  | cons f rest ih =>
    intro fs acc h
    have hf : cl.find_orphaned_files fs f = [] := h f (List.mem_cons_self f rest)
    have hstep : cl.cleanup_step (fs, acc) f = (fs, acc) := by
      simp [Cleanup.cleanup_step, hf]
    rw [List.foldl_cons, hstep]
    exact ih fs acc (fun g hg => h g (List.mem_cons_of_mem f hg))

/-- Claim C4 (amended): orphan reconciliation is idempotent on states
with no chained derivatives, that is, when no PengyStream file
reconstructs to an original that is itself a PengyStream file. The first
non-dry pass deletes the orphans; a second pass over the same folders
with no intervening filesystem change finds zero orphans, deletes
nothing and returns count 0. -/
theorem orphan_cleanup_idempotent_no_chain
    (cl : Cleanup) (fs : List MPath) (folders : List (List String))
    (hchain : ∀ p ∈ fs, cl.is_pengystream_file p = true →
      cl.is_pengystream_file (cl.get_original_path p) = false) :
    (cl.cleanup_orphaned_files
        ((cl.cleanup_orphaned_files fs folders false).1) folders false).2 = 0 ∧
    (cl.cleanup_orphaned_files
        ((cl.cleanup_orphaned_files fs folders false).1) folders false).1
      = (cl.cleanup_orphaned_files fs folders false).1 := by
  simp only [cleanup_false_eq]
  obtain ⟨hsub, hnil⟩ :=
    cleanup_go cl folders fs 0 [] hchain (fun g hg => absurd hg (List.not_mem_nil g))
  have hnil2 : ∀ g ∈ folders,
      cl.find_orphaned_files ((folders.foldl cl.cleanup_step (fs, 0)).1) g = [] :=
    fun g hg => hnil g (by simpa using hg)
  have hdone :=
    cleanup_noop cl folders ((folders.foldl cl.cleanup_step (fs, 0)).1) 0 hnil2
  rw [hdone]
  exact ⟨rfl, rfl⟩

/-- A source and its derivative, with no chained derivatives. -/
def fsW4 : List MPath := [pW, ⟨["m"], ("movie-PengyStream.mp4").toList⟩]

/-- Witness for claim C4: a second cleanup pass over a chain-free state
deletes nothing and leaves the state unchanged. -/
theorem orphan_cleanup_idempotent_no_chain_w :
    (defaultCleanup.cleanup_orphaned_files
        ((defaultCleanup.cleanup_orphaned_files fsW4 [["m"]] false).1)
        [["m"]] false).2 = 0 ∧
    (defaultCleanup.cleanup_orphaned_files
        ((defaultCleanup.cleanup_orphaned_files fsW4 [["m"]] false).1)
        [["m"]] false).1
      = (defaultCleanup.cleanup_orphaned_files fsW4 [["m"]] false).1 :=
  orphan_cleanup_idempotent_no_chain defaultCleanup fsW4 [["m"]] (by decide)

end PengyStream
